import Mathlib

/-!
Shallow embedding of the attribute codec and connection supervisor of the
christmas-ornament BLE bridge (`src/host/src/attrs/uintqty.rs`,
`src/host/src/attrs/scaledqty.rs`, `src/host/src/attrs/mod.rs`,
`src/host/src/main.rs`), together with proofs about the embedded code.

Modelling conventions:
* Rust `u64` values are `Nat` with wrap-around written explicitly as `% 2 ^ 64`
  where the source can overflow (the `num <<= 8` accumulator in `get`); bytes
  (`u8`) are `Nat`s assumed `< 256` where that matters.
* `f64` values are modelled as exact rationals (`ℚ`); `f64::round` rounds half
  away from zero and `as u64` is the saturating cast, as in Rust.  The
  properties proved here about the scaled codec are insensitive to the
  difference between exact rational arithmetic and IEEE rounding.
* The device write performed by `attrs::write_characteristic` is modelled by an
  oracle `write : List Nat → StatusCode`; handlers return, besides the status,
  the list of byte strings actually handed to the device, so "no write was
  performed" is the statement that this list is empty.
* The `async` supervisor loop of `main.rs` is modelled as a step-indexed state
  machine over a stream of connectivity observations, with an explicit event
  trace (sleep, connectivity query, reconnection attempt).
-/

namespace Ornament

/-- HTTP status codes used by the handlers (`axum::http::StatusCode`). -/
inductive StatusCode where
  | ok
  | badRequest
  | notFound
  | internalServerError
  | serviceUnavailable
deriving DecidableEq

/-- `uintqty::UIntQtyValue`: an unsigned integer quantity with an optional
unit.  `value` is a `u64`, modelled as a `Nat` (callers that need the `u64`
range add `value < 2 ^ 64` as a hypothesis). -/
structure UIntQtyValue where
  value : Nat
  unit : Option String
deriving DecidableEq

/-- `scaledqty::ScaledQtyValue`: a floating-point quantity with a mandatory
unit; the `f64` is modelled as a rational. -/
structure ScaledQtyValue where
  value : ℚ
  unit : String
deriving DecidableEq

deriving instance DecidableEq for Except

/-- One step of the accumulation loop in `uintqty::get`:
`num <<= 8; num |= byte` on a `u64` accumulator (the shift wraps at `2 ^ 64`).
-/
def accumByte (num b : Nat) : Nat :=
  ((num <<< 8) % 2 ^ 64) ||| b

/-- The whole accumulation loop of `uintqty::get`: starting from `0`, fold
`accumByte` over the bytes in the order they were received. -/
def accumulate (bytes : List Nat) : Nat :=
  bytes.foldl accumByte 0

/-- Failures of the decode half of the unsigned-integer codec
(`uintqty::get`, lines 62-72). -/
inductive DecodeError where
  | lengthMismatch
  | unavailable
deriving DecidableEq

/-- The decode half of the unsigned-integer codec: the body of `uintqty::get`
after the characteristic bytes have been read.  Checks the length, then the
all-`0xff` sentinel, then accumulates the bytes and attaches the unit. -/
def decode (bytes : List Nat) (width : Nat) (unit : Option String) :
    Except DecodeError UIntQtyValue :=
  if bytes.length ≠ width then .error .lengthMismatch
  else if bytes.all (· == 0xff) then .error .unavailable
  else .ok ⟨accumulate bytes, unit⟩

/-- The byte-emission loop of `uintqty::post`: run `n` iterations of
`bytes.push(num & 0xff); num >>= 8`, returning the emitted bytes (in push
order) and the leftover accumulator. -/
def encodeLoop : Nat → Nat → List Nat × Nat
  | 0, num => ([], num)
  | n + 1, num =>
    let rest := encodeLoop n (num >>> 8)
    ((num &&& 0xff) :: rest.1, rest.2)

/-- Failures of the encode half of the unsigned-integer codec
(`uintqty::post`, lines 133-149).  The source returns `BAD_REQUEST` in both
cases; the two are distinguished by their log messages. -/
inductive EncodeError where
  | valueTooLarge
  | invalidValue
deriving DecidableEq

/-- The encode half of the unsigned-integer codec: the body of `uintqty::post`
after the unit check.  Emits `width` bytes little-endian, then fails if the
value did not fit, then fails if the emitted bytes are all `0xff`. -/
def encode (value width : Nat) : Except EncodeError (List Nat) :=
  if (encodeLoop width value).2 ≠ 0 then .error .valueTooLarge
  else if (encodeLoop width value).1.all (· == 0xff) then .error .invalidValue
  else .ok (encodeLoop width value).1

/-- Failures of `attrs::read_characteristic`: the characteristic was not found
in the service, or the BLE read itself failed. -/
inductive ReadError where
  | notFound
  | transportFailure
deriving DecidableEq

/-- The response `attrs::read_characteristic` produces for each of its
failures: `(NOT_FOUND, Json(None))` or `(INTERNAL_SERVER_ERROR, Json(None))`.
-/
def readErrorResponse (e : ReadError) : StatusCode × Option UIntQtyValue :=
  match e with
  | .notFound => (.notFound, none)
  | .transportFailure => (.internalServerError, none)

namespace uintqty

/-- `uintqty::get`, as a function of the outcome of
`attrs::read_characteristic`: propagate read failures, then run the decode
half of the codec, mapping `LengthMismatch` to `INTERNAL_SERVER_ERROR` and the
sentinel to `SERVICE_UNAVAILABLE`. -/
def get (readResult : Except ReadError (List Nat)) (length : Nat)
    (unit : Option String) : StatusCode × Option UIntQtyValue :=
  match readResult with
  | .error e => readErrorResponse e
  | .ok bytes =>
    match decode bytes length unit with
    | .error .lengthMismatch => (.internalServerError, none)
    | .error .unavailable => (.serviceUnavailable, none)
    | .ok v => (.ok, some v)

/-- Failures of the validation part of `uintqty::post` (all reported to the
client as `BAD_REQUEST`). -/
inductive PostError where
  | unitMismatch
  | valueTooLarge
  | invalidValue
deriving DecidableEq

/-- The validation part of `uintqty::post`: the unit check followed by the
encode half of the codec.  `.ok bytes` means control reaches the final
`attrs::write_characteristic(&state, uuid16, &bytes)` call; `.error e` means
the corresponding early `return StatusCode::BAD_REQUEST`. -/
def validate (request : UIntQtyValue) (length : Nat) (unit : Option String) :
    Except PostError (List Nat) :=
  if unit ≠ request.unit then .error .unitMismatch
  else
    match encode request.value length with
    | .error .valueTooLarge => .error .valueTooLarge
    | .error .invalidValue => .error .invalidValue
    | .ok bytes => .ok bytes

/-- `uintqty::post`, with the device write modelled by the oracle `write`.
Besides the status returned to the client, the result records the list of byte
strings written to the device (empty when validation failed before the write).
-/
def post (request : UIntQtyValue) (length : Nat) (unit : Option String)
    (write : List Nat → StatusCode) : StatusCode × List (List Nat) :=
  match validate request length unit with
  | .error _ => (.badRequest, [])
  | .ok bytes => (write bytes, [bytes])

end uintqty

/-- Rust `f64::round` on the rational model: round half away from zero. -/
def f64Round (q : ℚ) : ℚ :=
  if q < 0 then -((⌊-q + 1 / 2⌋ : ℤ) : ℚ) else ((⌊q + 1 / 2⌋ : ℤ) : ℚ)

/-- Rust `as u64` on a finite (already rounded) float: the saturating cast,
clamping below at `0` and above at `2 ^ 64 - 1`. -/
def f64AsU64 (q : ℚ) : Nat :=
  if q < 0 then 0 else min ⌊q⌋.toNat (2 ^ 64 - 1)

namespace scaledqty

/-- `scaledqty::get`: delegate to `uintqty::get` with the mandatory unit, pass
failures through unchanged, and multiply a successful raw value by `scale`. -/
def get (readResult : Except ReadError (List Nat)) (length : Nat) (scale : ℚ)
    (unit : String) : StatusCode × Option ScaledQtyValue :=
  match uintqty.get readResult length (some unit) with
  | (resp, none) => (resp, none)
  | (resp, some v) => (resp, some ⟨(v.value : ℚ) * scale, unit⟩)

/-- `scaledqty::post`: compute `(request.value / scale).round() as u64`, wrap
it as a `UIntQtyValue` carrying the attribute's mandatory unit, and delegate
to `uintqty::post` with that same declared unit. -/
def post (request : ScaledQtyValue) (length : Nat) (scale : ℚ) (unit : String)
    (write : List Nat → StatusCode) : StatusCode × List (List Nat) :=
  uintqty.post ⟨f64AsU64 (f64Round (request.value / scale)), some unit⟩
    length (some unit) write

end scaledqty

/-- Events observable in one run of the supervisor loop
(`main::disconnect_handler`): the poll-interval sleep, a connectivity query
(carrying its result: transport error, connected, or disconnected), and a
reconnection attempt.  The last constructor exists only so that "the loop
never attempts reconnection" can be stated; the loop body contains no connect
call, so the event is never emitted. -/
inductive SupEvent where
  | sleep
  | query (result : Except Unit Bool)
  | reconnect

/-- State of `main::disconnect_handler` after a number of iterations:
still looping, bailed with "Peripheral disconnected", terminated by a
transport error from `is_connected`, or returned `Ok(())`.  The last
constructor corresponds to the `Result::Ok` variant of the function's return
type; the loop has no break, so it is never produced. -/
inductive SupOutcome where
  | running
  | disconnected
  | transportError
  | finished
deriving DecidableEq

/-- `main::disconnect_handler`, stepped `n` iterations against a stream
`conn` of `is_connected` observations: each live iteration sleeps, queries
connectivity, loops again on `Ok(true)`, propagates a query error, and bails
with the fatal disconnected condition on `Ok(false)`. -/
def supRun (conn : Nat → Except Unit Bool) : Nat → SupOutcome
  | 0 => .running
  | n + 1 =>
    match supRun conn n with
    | .running =>
      match conn n with
      | .error _ => .transportError
      | .ok true => .running
      | .ok false => .disconnected
    | r => r

/-- The event trace of `main::disconnect_handler` over its first `n`
iterations: every iteration that starts sleeps for the poll interval and then
queries connectivity; after the loop has terminated nothing further happens.
-/
def supTrace (conn : Nat → Except Unit Bool) : Nat → List SupEvent
  | 0 => []
  | n + 1 =>
    match supRun conn n with
    | .running => supTrace conn n ++ [SupEvent.sleep, SupEvent.query (conn n)]
    | _ => supTrace conn n

/-- Big-endian (first byte most significant) value of a byte string: the
arithmetic characterisation of `accumulate` proved in
`accumulate_eq_beValue`. -/
def beValue (bytes : List Nat) : Nat :=
  bytes.foldl (fun a b => a * 256 + b) 0

/-! Helper lemmas about the byte-accumulation loop. -/

/-- OR-ing a byte below `2 ^ 8` into a value shifted left by 8 bits is plain
addition. -/
theorem shiftLeft_lor_eq_add (a b : Nat) (hb : b < 2 ^ 8) :
    (a <<< 8) ||| b = 2 ^ 8 * a + b := by
  apply Nat.eq_of_testBit_eq
  intro j
  rw [Nat.testBit_lor, Nat.testBit_shiftLeft, Nat.testBit_mul_pow_two_add a hb]
  by_cases h : j < 8
  · simp [h, Nat.not_le_of_lt h]
  · have hbj : b.testBit j = false :=
      Nat.testBit_lt_two_pow
        (lt_of_lt_of_le hb (Nat.pow_le_pow_right (by norm_num) (Nat.le_of_not_lt h)))
    simp [h, hbj, Nat.le_of_not_lt h]

/-- Below the wrap-around threshold, one step of the `uintqty::get`
accumulator is `a * 256 + b`. -/
theorem accumByte_eq (a b : Nat) (hb : b < 256) (ha : a * 256 < 2 ^ 64) :
    accumByte a b = a * 256 + b := by
  unfold accumByte
  have h1 : a <<< 8 < 2 ^ 64 := by
    rw [Nat.shiftLeft_eq]
    omega
  rw [Nat.mod_eq_of_lt h1, shiftLeft_lor_eq_add a b (by omega)]
  omega

/-- Folding the exact (non-wrapping) accumulation step from an arbitrary
accumulator. -/
theorem beValue_foldl (l : List Nat) (a : Nat) :
    l.foldl (fun x b => x * 256 + b) a = a * 256 ^ l.length + beValue l := by
  induction l generalizing a with
  | nil => simp [beValue]
  | cons b t ih =>
    simp only [List.foldl_cons, List.length_cons, beValue, Nat.zero_mul, Nat.zero_add]
    rw [ih (a * 256 + b), ih b]
    ring

/-- Peeling the most significant byte off a big-endian value. -/
theorem beValue_cons (b : Nat) (t : List Nat) :
    beValue (b :: t) = b * 256 ^ t.length + beValue t := by
  simp only [beValue, List.foldl_cons, Nat.zero_mul, Nat.zero_add]
  rw [show t.foldl (fun a b => a * 256 + b) b
        = t.foldl (fun x b => x * 256 + b) b from rfl, beValue_foldl]
  rfl

/-- The big-endian value of a byte string is bounded by `256 ^ length`. -/
theorem beValue_lt (l : List Nat) (hl : ∀ b ∈ l, b < 256) :
    beValue l < 256 ^ l.length := by
  induction l with
  | nil => simp [beValue]
  | cons b t ih =>
    have hb : b < 256 := hl b (List.mem_cons_self b t)
    have ht := ih fun x hx => hl x (List.mem_cons_of_mem b hx)
    rw [beValue_cons, List.length_cons, pow_succ]
    calc b * 256 ^ t.length + beValue t
        < b * 256 ^ t.length + 256 ^ t.length := by omega
      _ = (b + 1) * 256 ^ t.length := by ring
      _ ≤ 256 * 256 ^ t.length := by
          exact Nat.mul_le_mul_right _ (by omega)
      _ = 256 ^ t.length * 256 := by ring

/-- The wrapping accumulator of `uintqty::get` agrees with the exact one as
long as there is headroom in the `u64`. -/
theorem foldl_accumByte_eq (l : List Nat) (a : Nat)
    (hl : ∀ b ∈ l, b < 256) (ha : (a + 1) * 256 ^ l.length ≤ 2 ^ 64) :
    l.foldl accumByte a = l.foldl (fun x b => x * 256 + b) a := by
  induction l generalizing a with
  | nil => rfl
  | cons b t ih =>
    have hb : b < 256 := hl b (List.mem_cons_self b t)
    have hpow : (1 : Nat) ≤ 256 ^ t.length := Nat.one_le_pow _ _ (by norm_num)
    have hlen : (a + 1) * 256 ^ (b :: t).length = ((a + 1) * 256) * 256 ^ t.length := by
      rw [List.length_cons, pow_succ]; ring
    have hstep : a * 256 < 2 ^ 64 := by
      rw [hlen] at ha
      nlinarith
    simp only [List.foldl_cons, accumByte_eq a b hb hstep]
    apply ih
    · exact fun x hx => hl x (List.mem_cons_of_mem b hx)
    · calc (a * 256 + b + 1) * 256 ^ t.length
          ≤ ((a + 1) * 256) * 256 ^ t.length := by
            apply Nat.mul_le_mul_right
            omega
        _ = (a + 1) * 256 ^ (b :: t).length := hlen.symm
        _ ≤ 2 ^ 64 := ha

/-- The accumulation loop of `uintqty::get` computes the big-endian value of
the bytes (first byte most significant) whenever at most 8 bytes are folded.
-/
theorem accumulate_eq_beValue (l : List Nat) (h8 : l.length ≤ 8)
    (hl : ∀ b ∈ l, b < 256) : accumulate l = beValue l := by
  unfold accumulate beValue
  apply foldl_accumByte_eq l 0 hl
  simpa using Nat.pow_le_pow_right (by norm_num : (0:Nat) < 256) h8 |>.trans (by norm_num)

/-- The big-endian value is the all-ones value exactly when every byte is
`0xff`. -/
theorem beValue_eq_allFF_iff (l : List Nat) (hl : ∀ b ∈ l, b < 256) :
    beValue l = 256 ^ l.length - 1 ↔ ∀ b ∈ l, b = 255 := by
  induction l with
  | nil => simp [beValue]
  | cons b t ih =>
    have hb : b < 256 := hl b (List.mem_cons_self b t)
    have hlt : ∀ x ∈ t, x < 256 := fun x hx => hl x (List.mem_cons_of_mem b hx)
    have htlt : beValue t < 256 ^ t.length := beValue_lt t hlt
    have hpow : (1 : Nat) ≤ 256 ^ t.length := Nat.one_le_pow _ _ (by norm_num)
    rw [beValue_cons, List.length_cons, pow_succ]
    constructor
    · intro h
      have hb255 : b = 255 := by
        by_contra hne
        have hblt : b ≤ 254 := by omega
        have h254 : b * 256 ^ t.length ≤ 254 * 256 ^ t.length :=
          Nat.mul_le_mul_right _ hblt
        omega
      have ht255 : beValue t = 256 ^ t.length - 1 := by
        subst hb255
        omega
      intro x hx
      rcases List.mem_cons.mp hx with rfl | hx
      · exact hb255
      · exact (ih hlt).mp ht255 x hx
    · intro h
      have hb255 : b = 255 := h b (List.mem_cons_self b t)
      have ht255 : beValue t = 256 ^ t.length - 1 :=
        (ih hlt).mpr fun x hx => h x (List.mem_cons_of_mem b hx)
      subst hb255
      omega

/-! Helper lemmas about the byte-emission loop. -/

/-- The leftover accumulator after `n` emission steps is the value shifted
right `8 * n` bits. -/
theorem encodeLoop_snd (n : Nat) : ∀ v, (encodeLoop n v).2 = v >>> (8 * n) := by
  induction n with
  | zero => intro v; simp [encodeLoop]
  | succ n ih =>
    intro v
    simp only [encodeLoop, ih (v >>> 8), ← Nat.shiftRight_add]
    ring_nf

/-- A right shift is zero exactly when the value is below the corresponding
power of two. -/
theorem shiftRight_eq_zero_iff (v n : Nat) : v >>> n = 0 ↔ v < 2 ^ n := by
  rw [Nat.shiftRight_eq_div_pow]
  exact Nat.div_eq_zero_iff (Nat.pos_pow_of_pos n (by norm_num))

/-- The emission loop produces exactly `n` bytes. -/
theorem encodeLoop_fst_length (n : Nat) : ∀ v, (encodeLoop n v).1.length = n := by
  induction n with
  | zero => intro v; simp [encodeLoop]
  | succ n ih => intro v; simp [encodeLoop, ih (v >>> 8)]

/-- The boolean all-`0xff` check of the source, as a proposition. -/
theorem all_ff_iff (l : List Nat) :
    l.all (· == 0xff) = true ↔ ∀ b ∈ l, b = 255 := by
  simp

/-! Helper lemmas about the supervisor loop. -/

/-- The supervisor loop never returns `Ok(())`: it has no break. -/
theorem supRun_ne_finished (conn : Nat → Except Unit Bool) (n : Nat) :
    supRun conn n ≠ SupOutcome.finished := by
  induction n with
  | zero => simp [supRun]
  | succ n ih =>
    cases h : supRun conn n with
    | running =>
      cases hc : conn n with
      | error e => simp [supRun, h, hc]
      | ok b => cases b <;> simp [supRun, h, hc]
    | disconnected => simp [supRun, h]
    | transportError => simp [supRun, h]
    | finished => exact absurd h ih

/-- While every connectivity query has returned `Ok(true)`, the supervisor is
still looping. -/
theorem supRun_running (conn : Nat → Except Unit Bool) (n : Nat)
    (h : ∀ k, k < n → conn k = Except.ok true) :
    supRun conn n = SupOutcome.running := by
  induction n with
  | zero => rfl
  | succ n ih =>
    have hr := ih fun k hk => h k (Nat.lt_succ_of_lt hk)
    have hc := h n (Nat.lt_succ_self n)
    simp [supRun, hr, hc]

/-- While every connectivity query has returned `Ok(true)`, the trace is an
alternation of sleeps and queries, one pair per iteration, in that order. -/
theorem supTrace_running (conn : Nat → Except Unit Bool) (n : Nat)
    (h : ∀ k, k < n → conn k = Except.ok true) :
    supTrace conn n
      = (List.range n).flatMap fun k => [SupEvent.sleep, SupEvent.query (conn k)] := by
  induction n with
  | zero => rfl
  | succ n ih =>
    have hr := supRun_running conn n fun k hk => h k (Nat.lt_succ_of_lt hk)
    have ht := ih fun k hk => h k (Nat.lt_succ_of_lt hk)
    simp [supTrace, hr, ht, List.range_succ]

/-- As soon as a connectivity query returns `Ok(false)`, the supervisor bails
with the fatal disconnected condition, and stays there. -/
theorem supRun_disconnected (conn : Nat → Except Unit Bool) (K n : Nat)
    (hKn : K < n) (hpre : ∀ k, k < K → conn k = Except.ok true)
    (hK : conn K = Except.ok false) :
    supRun conn n = SupOutcome.disconnected := by
  induction n with
  | zero => omega
  | succ n ih =>
    rcases Nat.lt_or_ge K n with h | h
    · simp [supRun, ih h]
    · have hKeq : K = n := by omega
      subst hKeq
      have hr := supRun_running conn K hpre
      simp [supRun, hr, hK]

/-- The supervisor's trace never contains a reconnection attempt. -/
theorem reconnect_not_mem (conn : Nat → Except Unit Bool) (n : Nat) :
    SupEvent.reconnect ∉ supTrace conn n := by
  induction n with
  | zero => simp [supTrace]
  | succ n ih =>
    cases h : supRun conn n with
    | running => simp [supTrace, h, ih]
    | disconnected => simpa [supTrace, h] using ih
    | transportError => simpa [supTrace, h] using ih
    | finished => simpa [supTrace, h] using ih

/-! Claim theorems. -/

/-- C1: the round-trip `decode (encode v w) w = v` claimed by the spec (and by
the source's own little-endian comments) fails: at `v = 1`, `w = 2` the encoder
emits the least-significant byte first, producing `[0x01, 0x00]`, but the
decoder treats the first byte as most significant and returns `256`, not `1`.
This theorem evaluates the embedded code at that failing input. -/
theorem C1_roundtrip_evaluated :
    encode 1 2 = .ok [1, 0]
    ∧ decode [1, 0] 2 none = .ok ⟨256, none⟩
    ∧ (⟨256, none⟩ : UIntQtyValue) ≠ ⟨1, none⟩ :=
  ⟨rfl, rfl, by decide⟩

/-- C3: when the byte length equals the declared width and the bytes are not
all `0xff`, `decode` folds the bytes left to right through
"shift the accumulator left 8 bits, then OR in the next byte", so the first
byte received is most significant (`beValue`), and the unit is attached
unchanged; concretely, `decode [0x00, 0x00, 0x00, 0x01] 4 none` returns the
quantity `1` with no unit. -/
theorem C3_decode_accumulation_order (bytes : List Nat) (width : Nat)
    (unit : Option String) (hlen : bytes.length = width) (hw : width ≤ 8)
    (hb : ∀ b ∈ bytes, b < 256) (hff : ¬ ∀ b ∈ bytes, b = 255) :
    decode bytes width unit = .ok ⟨beValue bytes, unit⟩
    ∧ decode [0, 0, 0, 1] 4 none = .ok ⟨1, none⟩ := by
  constructor
  · unfold decode
    rw [if_neg (by omega), if_neg (fun hc => hff ((all_ff_iff bytes).mp hc))]
    rw [accumulate_eq_beValue bytes (by omega) hb]
  · rfl

/-- Witness for C3 at the concrete input `[0, 0, 0, 1]` of width 4. -/
theorem C3_decode_accumulation_order_witness :
    decode [0, 0, 0, 1] 4 none = .ok ⟨beValue [0, 0, 0, 1], none⟩ :=
  (C3_decode_accumulation_order [0, 0, 0, 1] 4 none rfl (by decide) (by decide)
    (by decide)).1

/-- C4 as stated is false: the length check precedes the sentinel check, so a
byte string consisting entirely of `0xff` whose length does not match the
width fails with `LengthMismatch`, not `Unavailable`.  Counterexample:
`bytes = [0xff]`, `w = 2`. -/
theorem C4_unavailable_iff_counterexample :
    ¬ (decode [255] 2 none = .error .unavailable
        ↔ ([255] : List Nat).all (· == 0xff) = true) := by
  decide

/-- C4 amended: restricted to byte strings whose length equals the declared
width, `decode` fails `Unavailable` if and only if every byte equals `0xff`.
-/
theorem C4_unavailable_iff (bytes : List Nat) (width : Nat)
    (unit : Option String) (hlen : bytes.length = width) :
    decode bytes width unit = .error .unavailable ↔ ∀ b ∈ bytes, b = 255 := by
  unfold decode
  rw [if_neg (by omega)]
  by_cases hff : bytes.all (· == 0xff) = true
  · rw [if_pos hff]
    simp only [all_ff_iff] at hff
    exact iff_of_true rfl hff
  · rw [if_neg hff]
    simp only [all_ff_iff] at hff
    constructor
    · intro h
      simp at h
    · intro h
      exact absurd h hff

/-- Witness for the amended C4 at `bytes = [0xff, 0xff]`, `w = 2`. -/
theorem C4_unavailable_iff_witness :
    decode [255, 255] 2 none = .error .unavailable :=
  (C4_unavailable_iff [255, 255] 2 none rfl).mpr (by decide)

/-- C5 as stated is false: the overflow check precedes the sentinel check, so
a value whose low `w` bytes are all `0xff` but which does not fit in `w` bytes
fails `ValueTooLarge` even though the byte sequence it produced is all `0xff`.
Counterexample: `v = 0x1ff`, `w = 1`. -/
theorem C5_invalid_iff_counterexample :
    ¬ (encode 511 1 = .error .invalidValue
        ↔ (encodeLoop 1 511).1.all (· == 0xff) = true) := by
  decide

/-- C5 amended: for values that fit in the declared width
(`v < 2 ^ (8 w)`), `encode` fails `InvalidValue` if and only if the byte
sequence it produces is all `0xff`. -/
theorem C5_invalid_iff (v w : Nat) (hv : v < 2 ^ (8 * w)) :
    encode v w = .error .invalidValue
      ↔ (encodeLoop w v).1.all (· == 0xff) = true := by
  unfold encode
  have h0 : (encodeLoop w v).2 = 0 := by
    rw [encodeLoop_snd, shiftRight_eq_zero_iff]
    exact hv
  rw [if_neg (by simp [h0])]
  by_cases hff : (encodeLoop w v).1.all (· == 0xff) = true
  · simp [hff]
  · simp [hff]

/-- Witness for the amended C5 at `v = 255`, `w = 1`. -/
theorem C5_invalid_iff_witness : encode 255 1 = .error .invalidValue :=
  (C5_invalid_iff 255 1 (by decide)).mpr (by decide)

/-- C6: for every `u64` value `v` and width `w ∈ [1, 8]`, `encode` fails
`ValueTooLarge` if and only if `v ≥ 2 ^ (8 w)` (nonzero bits remain in the
accumulator after `w` bytes were emitted). -/
theorem C6_too_large_iff (v w : Nat) (hw1 : 1 ≤ w) (hw8 : w ≤ 8)
    (hv : v < 2 ^ 64) :
    encode v w = .error .valueTooLarge ↔ 2 ^ (8 * w) ≤ v := by
  unfold encode
  rw [encodeLoop_snd]
  by_cases h : v >>> (8 * w) = 0
  · have hlt : v < 2 ^ (8 * w) := (shiftRight_eq_zero_iff v (8 * w)).mp h
    rw [if_neg (by simp [h])]
    by_cases hff : (encodeLoop w v).1.all (· == 0xff) = true
    · simp [hff]
      omega
    · simp [hff]
      omega
  · have hge : 2 ^ (8 * w) ≤ v := by
      rcases Nat.lt_or_ge v (2 ^ (8 * w)) with hlt | hge
      · exact absurd ((shiftRight_eq_zero_iff v (8 * w)).mpr hlt) h
      · exact hge
    rw [if_pos h]
    simp [hge]

/-- Witness for C6 at `v = 70000`, `w = 2`. -/
theorem C6_too_large_iff_witness : encode 70000 2 = .error .valueTooLarge :=
  (C6_too_large_iff 70000 2 (by decide) (by decide) (by norm_num)).mpr
    (by norm_num)

/-- C7: if the request's unit differs from the attribute's declared unit
(`Option String` equality, so "both absent" counts as matching), `post`
returns `BAD_REQUEST` and writes nothing; and whenever any validation step of
`post` fails (unit mismatch, overflow, or sentinel collision), no device write
is performed. -/
theorem C7_post_atomic (request : UIntQtyValue) (length : Nat)
    (unit : Option String) (write : List Nat → StatusCode) :
    (request.unit ≠ unit →
      uintqty.post request length unit write = (.badRequest, []))
    ∧ (∀ e, uintqty.validate request length unit = .error e →
      uintqty.post request length unit write = (.badRequest, [])) := by
  constructor
  · intro h
    have hv : uintqty.validate request length unit = .error .unitMismatch := by
      unfold uintqty.validate
      rw [if_pos (Ne.symm h)]
    simp [uintqty.post, hv]
  · intro e he
    simp [uintqty.post, he]

/-- Witness for C7: posting unit `"lux"` against declared unit `"LUX"` is a
bad request with no write. -/
theorem C7_post_atomic_witness :
    uintqty.post ⟨1, some "lux"⟩ 1 (some "LUX") (fun _ => StatusCode.ok)
      = (.badRequest, []) :=
  (C7_post_atomic ⟨1, some "lux"⟩ 1 (some "LUX") (fun _ => StatusCode.ok)).1
    (by decide)

/-- C8: `scaledqty::post` computes the raw integer
`(request.value / scale).round() as u64`, wraps it as a `UIntQtyValue`
carrying the attribute's mandatory unit, and delegates to `uintqty::post`
with that same declared unit; consequently the unit check can never fail for
the delegated request, and the outcome (status and device writes) is entirely
determined by the unsigned encode of the rounded raw integer — the overflow
and sentinel-collision checks apply to it unmodified. -/
theorem C8_scaled_post_delegates (request : ScaledQtyValue) (length : Nat)
    (scale : ℚ) (unit : String) (write : List Nat → StatusCode) :
    scaledqty.post request length scale unit write
      = uintqty.post ⟨f64AsU64 (f64Round (request.value / scale)), some unit⟩
          length (some unit) write
    ∧ uintqty.validate
        ⟨f64AsU64 (f64Round (request.value / scale)), some unit⟩
        length (some unit) ≠ .error .unitMismatch
    ∧ scaledqty.post request length scale unit write
      = (match encode (f64AsU64 (f64Round (request.value / scale))) length with
          | .error _ => (.badRequest, [])
          | .ok bytes => (write bytes, [bytes])) := by
  refine ⟨rfl, ?_, ?_⟩
  · unfold uintqty.validate
    rw [if_neg (by simp)]
    rcases h : encode (f64AsU64 (f64Round (request.value / scale))) length
      with e | bytes
    · cases e <;> simp
    · simp
  · show uintqty.post _ _ _ _ = _
    unfold uintqty.post uintqty.validate
    rw [if_neg (by simp)]
    rcases h : encode (f64AsU64 (f64Round (request.value / scale))) length
      with e | bytes
    · cases e <;> simp
    · simp

/-- C2: writing `{value: 12.3, unit: "lux"}` at scale `1e-1` and width 4 does
produce the raw integer `123 = round(12.3 / 0.1)` — the write half of the
claim holds, and the bytes written are `[0x7b, 0, 0, 0]` — but a subsequent
read of those same bytes does not return `12.3`: the decoder treats the first
(least-significant) byte as most significant, yielding the raw value
`0x7b000000 = 2063597568` and hence `206359756.8 lux`.  This theorem evaluates
the embedded code at that failing input. -/
theorem C2_threshold_write_read_evaluated :
    scaledqty.post ⟨123 / 10, "lux"⟩ 4 (1 / 10) "lux" (fun _ => StatusCode.ok)
      = (StatusCode.ok, [[123, 0, 0, 0]])
    ∧ scaledqty.get (.ok [123, 0, 0, 0]) 4 (1 / 10) "lux"
      = (StatusCode.ok, some ⟨1031798784 / 5, "lux"⟩)
    ∧ (1031798784 / 5 : ℚ) ≠ 123 / 10 := by
  have hq : ((123 / 10 : ℚ) / (1 / 10)) = 123 := by norm_num
  have hfloor : (⌊(123 : ℚ) + 1 / 2⌋ : ℤ) = 123 := by
    rw [Int.floor_eq_iff]
    constructor <;> norm_num
  have hround : f64Round ((123 / 10 : ℚ) / (1 / 10)) = 123 := by
    rw [hq]
    unfold f64Round
    rw [if_neg (by norm_num), hfloor]
    norm_num
  have hfloor2 : (⌊(123 : ℚ)⌋ : ℤ) = 123 := by
    rw [Int.floor_eq_iff]
    constructor <;> norm_num
  have hraw : f64AsU64 (f64Round ((123 / 10 : ℚ) / (1 / 10))) = 123 := by
    rw [hround]
    unfold f64AsU64
    rw [if_neg (by norm_num), hfloor2]
    decide
  refine ⟨?_, ?_, by norm_num⟩
  · show uintqty.post
        ⟨f64AsU64 (f64Round ((123 / 10 : ℚ) / (1 / 10))), some "lux"⟩
        4 (some "lux") (fun _ => StatusCode.ok) = _
    rw [hraw]
    rfl
  · have hget : uintqty.get (.ok [123, 0, 0, 0]) 4 (some "lux")
        = (StatusCode.ok, some ⟨2063597568, some "lux"⟩) := rfl
    unfold scaledqty.get
    rw [hget]
    simp only []
    norm_num

/-- C9: the connection supervisor, run against any stream of connectivity
observations, (a) never returns successfully, (b) while every query reports
the peripheral connected it keeps looping, its trace being exactly one
poll-interval sleep followed by one connectivity query per iteration, (c) at
the first query reporting the peripheral disconnected it raises the fatal
`Disconnected` condition (and stays terminated), and (d) its trace never
contains a reconnection attempt. -/
theorem C9_supervisor_loop (conn : Nat → Except Unit Bool) (n : Nat) :
    supRun conn n ≠ SupOutcome.finished
    ∧ ((∀ k, k < n → conn k = Except.ok true) →
        supRun conn n = SupOutcome.running
        ∧ supTrace conn n
          = (List.range n).flatMap
              fun k => [SupEvent.sleep, SupEvent.query (conn k)])
    ∧ (∀ K, K < n → (∀ k, k < K → conn k = Except.ok true) →
        conn K = Except.ok false → supRun conn n = SupOutcome.disconnected)
    ∧ SupEvent.reconnect ∉ supTrace conn n :=
  ⟨supRun_ne_finished conn n,
   fun h => ⟨supRun_running conn n h, supTrace_running conn n h⟩,
   fun K hK hpre hKf => supRun_disconnected conn K n hK hpre hKf,
   reconnect_not_mem conn n⟩

/-- Witness for C9: a peripheral that is connected for two polls and then
gone makes the supervisor raise the fatal disconnected condition on the third
iteration. -/
theorem C9_supervisor_loop_witness :
    supRun (fun k => if k < 2 then Except.ok true else Except.ok false) 3
      = SupOutcome.disconnected :=
  (C9_supervisor_loop
      (fun k => if k < 2 then Except.ok true else Except.ok false) 3).2.2.1
    2 (by omega) (fun k hk => by simp [hk]) (by simp)

/-- C10: for every read handler (both unsigned and scaled), the HTTP status
is `OK` exactly when the JSON body carries a quantity, every failure outcome
carries a `null` body, and a successful unsigned value is below
`2 ^ (8 width)` and never equals the sentinel `2 ^ (8 width) - 1`. -/
theorem C10_read_handler_invariant (readResult : Except ReadError (List Nat))
    (length : Nat) (unit : Option String) (scale : ℚ) (sunit : String)
    (h8 : length ≤ 8)
    (hbytes : ∀ bytes, readResult = .ok bytes → ∀ b ∈ bytes, b < 256) :
    ((uintqty.get readResult length unit).1 = StatusCode.ok
      ↔ ((uintqty.get readResult length unit).2).isSome)
    ∧ (∀ q, (uintqty.get readResult length unit).2 = some q →
        q.value < 2 ^ (8 * length) ∧ q.value ≠ 2 ^ (8 * length) - 1)
    ∧ ((scaledqty.get readResult length scale sunit).1 = StatusCode.ok
      ↔ ((scaledqty.get readResult length scale sunit).2).isSome) := by
  have hpow : (256 : Nat) ^ length = 2 ^ (8 * length) := by
    rw [show (256 : Nat) = 2 ^ 8 by norm_num, ← pow_mul]
  rcases readResult with e | bytes
  · refine ⟨?_, ?_, ?_⟩
    · cases e <;> simp [uintqty.get, readErrorResponse]
    · intro q hq
      cases e <;> simp [uintqty.get, readErrorResponse] at hq
    · cases e <;> simp [scaledqty.get, uintqty.get, readErrorResponse]
  · have hb : ∀ b ∈ bytes, b < 256 := hbytes bytes rfl
    by_cases hlen : bytes.length = length
    · by_cases hff : bytes.all (· == 0xff) = true
      · have hdec : decode bytes length unit = .error .unavailable := by
          unfold decode
          rw [if_neg (by omega), if_pos hff]
        have hdec2 : decode bytes length (some sunit) = .error .unavailable := by
          unfold decode
          rw [if_neg (by omega), if_pos hff]
        refine ⟨?_, ?_, ?_⟩
        · simp [uintqty.get, hdec]
        · intro q hq
          simp [uintqty.get, hdec] at hq
        · simp [scaledqty.get, uintqty.get, hdec2]
      · have hval : accumulate bytes = beValue bytes :=
          accumulate_eq_beValue bytes (by omega) hb
        have hdec : decode bytes length unit = .ok ⟨beValue bytes, unit⟩ := by
          unfold decode
          rw [if_neg (by omega), if_neg hff, hval]
        have hdec2 : decode bytes length (some sunit)
            = .ok ⟨beValue bytes, some sunit⟩ := by
          unfold decode
          rw [if_neg (by omega), if_neg hff, hval]
        have hlt : beValue bytes < 2 ^ (8 * length) := by
          rw [← hpow, ← hlen]
          exact beValue_lt bytes hb
        have hne : beValue bytes ≠ 2 ^ (8 * length) - 1 := by
          intro hcontra
          apply hff
          rw [all_ff_iff]
          apply (beValue_eq_allFF_iff bytes hb).mp
          rw [hlen, hpow]
          exact hcontra
        refine ⟨?_, ?_, ?_⟩
        · simp [uintqty.get, hdec]
        · intro q hq
          simp [uintqty.get, hdec] at hq
          rw [← hq]
          exact ⟨hlt, hne⟩
        · simp [scaledqty.get, uintqty.get, hdec2]
    · have hdec : decode bytes length unit = .error .lengthMismatch := by
        unfold decode
        rw [if_pos (by omega)]
      have hdec2 : decode bytes length (some sunit) = .error .lengthMismatch := by
        unfold decode
        rw [if_pos (by omega)]
      refine ⟨?_, ?_, ?_⟩
      · simp [uintqty.get, hdec]
      · intro q hq
        simp [uintqty.get, hdec] at hq
      · simp [scaledqty.get, uintqty.get, hdec2]

/-- Witness for C10: reading `[0, 0, 1]` through a 3-byte unsigned attribute
yields a value below `2 ^ 24` that is not the sentinel. -/
theorem C10_read_handler_invariant_witness :
    (1 : Nat) < 2 ^ (8 * 3) ∧ (1 : Nat) ≠ 2 ^ (8 * 3) - 1 :=
  (C10_read_handler_invariant (.ok [0, 0, 1]) 3 none 1 "volts" (by decide)
      (by intro bytes h; cases h; decide)).2.1
    ⟨1, none⟩ rfl

end Ornament
